import Mathlib

/-!
Verification development for the debate-orchestration engine of the
multi-agent AI researcher repository.

The Python sources are shallowly embedded: each Python function that a
claim depends on is translated into an executable Lean definition over
explicit state records.  Floating-point importances, scores and
thresholds are modelled as rationals; Python dicts keyed by entry id are
modelled as insertion-ordered association lists; Python's `datetime`-based
entry ids (md5 of content plus creation time, unique per entry) are
modelled by a monotone counter `next_id`.
-/

namespace AIResearch

/-! ## Memory subsystem — `ai_research_agents/core/memory.py` -/

/-- `MemoryEntry` from `memory.py` (the persistence-only fields
`timestamp`, `related_ids`, `metadata`, `embedding` are omitted; no claim
reads them). -/
structure MemoryEntry where
  id : Nat
  content : String
  source : String
  importance : ℚ
  tags : List String
  deriving DecidableEq, Repr

/-- A request to `AgentMemory.add`, bundling its four arguments. -/
structure AddReq where
  content : String
  source : String
  importance : ℚ
  tags : List String
  deriving DecidableEq, Repr

/-- Python dict assignment `d[k] = v` on an insertion-ordered dict with
unique keys: overwrite in place if the key is present, else append. -/
def dictInsert : List (Nat × MemoryEntry) → Nat → MemoryEntry →
    List (Nat × MemoryEntry)
  | [], k, v => [(k, v)]
  | p :: d, k, v => if p.1 = k then (k, v) :: d else p :: dictInsert d k v

/-- Python dict read `d.get(k)`. -/
def dictLookup (d : List (Nat × MemoryEntry)) (k : Nat) : Option MemoryEntry :=
  (d.find? (fun p => p.1 == k)).map Prod.snd

/-- Python slice `l[:-k]`; for `k = 0` this is `l[:0] = []`. -/
def pySliceUptoNeg (l : List α) (k : Nat) : List α :=
  if k = 0 then [] else l.take (l.length - k)

/-- Python slice `l[-k:]`; for `k = 0` this is `l[0:] = l`. -/
def pySliceFromNeg (l : List α) (k : Nat) : List α :=
  if k = 0 then l else l.drop (l.length - k)

/-- The mutable state of `AgentMemory` (`memory.py`): the ordered
short-term buffer, the long-term dict keyed by entry id, the two
configuration attributes set in `__init__` (`max_short_term = 100`,
`importance_threshold = 0.7`), and the id counter modelling the unique
md5-of-content-and-time ids. -/
structure AgentMemory where
  short_term : List MemoryEntry
  long_term : List (Nat × MemoryEntry)
  max_short_term : Nat
  importance_threshold : ℚ
  next_id : Nat
  deriving DecidableEq, Repr

/-- A freshly constructed `AgentMemory` (empty stores, no disk state). -/
def initMemory (maxShort : Nat) (thr : ℚ) : AgentMemory :=
  { short_term := [], long_term := [], max_short_term := maxShort,
    importance_threshold := thr, next_id := 0 }

/-- `AgentMemory._consolidate_to_long_term`: `self.long_term[entry.id] = entry`. -/
def consolidate_to_long_term (m : AgentMemory) (e : MemoryEntry) : AgentMemory :=
  { m with long_term := dictInsert m.long_term e.id e }

/-- `AgentMemory._consolidate_oldest`: evict all but the last
`max_short_term` entries from the short-term buffer, inserting each
evicted entry whose importance meets the threshold into long-term. -/
def consolidate_oldest (m : AgentMemory) : AgentMemory :=
  let to_move := pySliceUptoNeg m.short_term m.max_short_term
  let kept := pySliceFromNeg m.short_term m.max_short_term
  let lt := to_move.foldl
    (fun d e => if m.importance_threshold ≤ e.importance then dictInsert d e.id e else d)
    m.long_term
  { m with short_term := kept, long_term := lt }

/-- The entry that `AgentMemory.add` constructs for request `r`. -/
def mkEntry (m : AgentMemory) (r : AddReq) : MemoryEntry :=
  { id := m.next_id, content := r.content, source := r.source,
    importance := r.importance, tags := r.tags }

/-- `AgentMemory.add`: append the new entry to short-term; if its
importance meets the threshold, also insert it into long-term; then trim
short-term when it exceeds capacity. -/
def AgentMemory.add (m : AgentMemory) (r : AddReq) : AgentMemory :=
  let e := mkEntry m r
  let m₁ : AgentMemory :=
    { m with short_term := m.short_term ++ [e], next_id := m.next_id + 1 }
  let m₂ := if m.importance_threshold ≤ r.importance
    then consolidate_to_long_term m₁ e else m₁
  if m₂.max_short_term < m₂.short_term.length then consolidate_oldest m₂ else m₂

/-- Fold a sequence of `add` calls over a memory state. -/
def runAdds (m : AgentMemory) (rs : List AddReq) : AgentMemory :=
  rs.foldl AgentMemory.add m

/-- Split a character list on whitespace runs, dropping empty words
(Python `str.split()` with no argument); `acc` holds the reversed
characters of the word currently being read. -/
def wordsAux : List Char → List Char → List String
  | [], acc => if acc.isEmpty then [] else [String.mk acc.reverse]
  | c :: cs, acc =>
    if c.isWhitespace then
      if acc.isEmpty then wordsAux cs [] else String.mk acc.reverse :: wordsAux cs []
    else wordsAux cs (c :: acc)

/-- Python `set(s.lower().split())`: lower-case, split on whitespace,
deduplicate (order-insensitive set use: only membership and size are read). -/
def pyWords (s : String) : List String :=
  (wordsAux (s.data.map Char.toLower) []).dedup

/-- `AgentMemory._calculate_relevance`: token-overlap ratio between query
and content, times the entry's importance; `0` when the overlap is empty. -/
def calculate_relevance (query : String) (e : MemoryEntry) : ℚ :=
  let qw := pyWords query
  let cw := pyWords e.content
  let inter := qw.filter (fun w => cw.contains w)
  if inter.isEmpty then 0
  else (inter.length : ℚ) / (qw.length : ℚ) * e.importance

/-- The candidate list scanned by `search`:
`list(self.short_term) + list(self.long_term.values())`. -/
def allMemories (m : AgentMemory) : List MemoryEntry :=
  m.short_term ++ m.long_term.map Prod.snd

/-- The filter applied inside `search`'s loop: the two `continue` guards
(importance below `min_importance`; a nonempty required-tag set not a
subset of the entry's tags) plus the `score > 0` append guard. -/
def searchPred (query : String) (tags : List String) (min_importance : ℚ)
    (e : MemoryEntry) : Bool :=
  !(e.importance < min_importance) &&
  (tags.isEmpty || tags.all (fun t => e.tags.contains t)) &&
  (0 < calculate_relevance query e)

/-- Insert a scored entry into a list already sorted by score descending,
after every element of greater-or-equal score (so that elements of equal
score keep their original relative order). -/
def insertDesc (a : ℚ × MemoryEntry) : List (ℚ × MemoryEntry) → List (ℚ × MemoryEntry)
  | [] => [a]
  | b :: l => if a.1 ≤ b.1 then b :: insertDesc a l else a :: b :: l

/-- Python's stable `results.sort(key=lambda x: x[0], reverse=True)`:
stable sort by score descending, as a left fold of stable insertions. -/
def sortByScoreDesc (l : List (ℚ × MemoryEntry)) : List (ℚ × MemoryEntry) :=
  l.foldl (fun acc a => insertDesc a acc) []

/-- `AgentMemory.search`: score the surviving candidates, sort by score
descending (Python's stable `list.sort(key=..., reverse=True)`), return
the first `limit` entries. -/
def AgentMemory.search (m : AgentMemory) (query : String) (tags : List String)
    (min_importance : ℚ) (limit : Nat) : List MemoryEntry :=
  let scored := ((allMemories m).filter (searchPred query tags min_importance)).map
    (fun e => (calculate_relevance query e, e))
  ((sortByScoreDesc scored).take limit).map Prod.snd

/-! ## Message bus — `ai_research_agents/core/message.py`

Subscriber callbacks are external code registered by the agents; we
abstract a callback by an identifier and a `throws` flag saying whether
invoking it on the published message raises.  What the bus itself does —
which callbacks it invokes, in what order, and that a raised exception is
caught by the per-invocation `try`/`except` instead of aborting the
loop — is embedded operationally below. -/

structure Callback where
  cid : Nat
  throws : Bool
  deriving DecidableEq, Repr

/-- The fields of `Message` that the bus dispatch logic reads
(`recipient`, `thread_id`, `id`); the payload fields are carried opaquely. -/
structure BusMessage where
  id : String
  sender : String
  recipient : Option String
  content : String
  thread_id : Option String
  deriving DecidableEq, Repr

/-- The state of `MessageBus`: global log, subscriber registry in
registration order (`Dict[str, List[callable]]`), thread map. -/
structure MessageBus where
  messages : List BusMessage
  subscribers : List (String × List Callback)
  threads : List (String × List BusMessage)
  deriving DecidableEq, Repr

def emptyBus : MessageBus := { messages := [], subscribers := [], threads := [] }

/-- Membership test `k in d` for an insertion-ordered dict. -/
def alistHasKey (d : List (String × ν)) (k : String) : Bool :=
  d.any (fun p => p.1 == k)

/-- Read `d[k]` for an insertion-ordered dict. -/
def alistGet? (d : List (String × ν)) (k : String) : Option ν :=
  (d.find? (fun p => p.1 == k)).map Prod.snd

/-- `if k not in d: d[k] = []` followed by `d[k].append(v)`. -/
def alistAppendAt (d : List (String × List ν)) (k : String) (v : ν) :
    List (String × List ν) :=
  if alistHasKey d k then
    d.map (fun p => if p.1 == k then (p.1, p.2 ++ [v]) else p)
  else d ++ [(k, [v])]

/-- `MessageBus.subscribe`: append the callback under the agent's name,
creating the registry slot on first subscription. -/
def subscribe (bus : MessageBus) (agent_name : String) (cb : Callback) :
    MessageBus :=
  { bus with subscribers := alistAppendAt bus.subscribers agent_name cb }

/-- Every registered callback, in registration order of agents and,
within an agent, of callbacks — the broadcast iteration order of
`publish`'s `for subs in self.subscribers.values(): for callback in subs`. -/
def allCallbacks (bus : MessageBus) : List Callback :=
  (bus.subscribers.map Prod.snd).flatten

/-- The callbacks `publish` dispatches the message to.  Python's
`if message.recipient:` treats both `None` and the empty string as
broadcast (falsy); a directed message to an unregistered recipient is
dispatched to nobody. -/
def dispatchTargets (bus : MessageBus) (msg : BusMessage) : List Callback :=
  match msg.recipient with
  | some r =>
    if r = "" then allCallbacks bus
    else (alistGet? bus.subscribers r).getD []
  | none => allCallbacks bus

inductive CallOutcome
  | ok
  | raised
  deriving DecidableEq, Repr

/-- One wrapped callback invocation: the `try: callback(message)
except ...` body.  A raising callback yields `raised`, which the wrapper
catches (and logs); nothing propagates. -/
def invoke (c : Callback) : CallOutcome :=
  if c.throws then .raised else .ok

/-- The dispatch loop of `publish`: invoke each callback once, recording
its outcome; the loop continues past a `raised` outcome because the
exception was caught inside the loop body. -/
def dispatchLoop : List Callback → List (Callback × CallOutcome)
  | [] => []
  | c :: cs => (c, invoke c) :: dispatchLoop cs

/-- `MessageBus.publish`: append the message to the global log and to its
thread (`thread_id or id`, with Python falsy `or`), then run the dispatch
loop; returns the new bus state and the invocation record.  `publish`
itself always returns normally. -/
def publish (bus : MessageBus) (msg : BusMessage) :
    MessageBus × List (Callback × CallOutcome) :=
  let tid := match msg.thread_id with
    | some t => if t = "" then msg.id else t
    | none => msg.id
  let bus₁ := { bus with
    messages := bus.messages ++ [msg],
    threads := alistAppendAt bus.threads tid msg }
  (bus₁, dispatchLoop (dispatchTargets bus msg))

/-! ## Debate orchestration — `ai_research_agents/debate/orchestrator.py`

An agent's `act(context)` calls the upstream generator, which is external
and non-deterministic; we model each agent as an oracle from the
`"phase"` tag of the context it is handed to the optional message it
returns.  (The other context fields — topic, accumulated proposals and so
on — only feed the generator prompt and cannot influence the
orchestrator's control flow except through the returned message.) -/

inductive DebatePhase
  | initialization | exploration | proposal | critique | synthesis
  | verification | convergence | conclusion
  deriving DecidableEq, Repr

inductive DebateStatus
  | idle | running | paused | converged | max_rounds | error
  deriving DecidableEq, Repr

/-- The two fields of `DebateConfig` (config/settings.py) that the
orchestrator reads. -/
structure DebateConfig where
  max_rounds : Nat
  min_consensus_threshold : ℚ
  deriving DecidableEq, Repr

/-- The dataclass defaults: `max_rounds = 10`,
`min_consensus_threshold = 0.75`. -/
def defaultDebateConfig : DebateConfig :=
  { max_rounds := 10, min_consensus_threshold := 3/4 }

/-- A message returned by an agent's `act` (sender plus content; the
remaining `Message` fields are not read by the orchestrator's
extraction helpers). -/
structure AgentMsg where
  sender : String
  content : String
  deriving DecidableEq, Repr

structure DebateAgent where
  name : String
  role : String
  act : String → Option AgentMsg

/-- `DebateOrchestrator._get_agent`: first registered agent with the
requested role, else `None`. -/
def getAgent (agents : List DebateAgent) (role : String) : Option DebateAgent :=
  agents.find? (fun a => a.role == role)

/-- An extracted artifact dict (`_extract_proposal` /
`_extract_critique` / `_extract_synthesis` / `_extract_final_conclusion`
all store the message content plus its author; for the conclusion built
by `_phase_conclusion` from the last synthesis, the second field holds
that dict's `"source"` value `"synthesis"`). -/
structure Artifact where
  content : String
  author : String
  deriving DecidableEq, Repr

/-- A `DebateRound` record (number, phase, collected messages). -/
structure RoundRec where
  number : Nat
  phase : DebatePhase
  messages : List AgentMsg
  deriving DecidableEq, Repr

/-- The `ConsensusMetrics.agreement_matrix` (agent → agent → score). -/
def ConsensusMatrix := List (String × List (String × ℚ))

/-- `ConsensusMetrics.get_average_consensus`: mean of every populated
matrix entry, `0.0` for an empty matrix. -/
def getAverageConsensus (mtx : ConsensusMatrix) : ℚ :=
  let scores := (mtx.map (fun row => row.2.map Prod.snd)).flatten
  if scores.isEmpty then 0 else scores.sum / scores.length

/-- The orchestrator's mutable state. -/
structure OrchState where
  current_round : Nat
  rounds : List RoundRec
  proposals : List Artifact
  critiques : List Artifact
  syntheses : List Artifact
  final_conclusion : Option Artifact
  status : DebateStatus
  consensus : ConsensusMatrix

def initOrchState : OrchState :=
  { current_round := 0, rounds := [], proposals := [], critiques := [],
    syntheses := [], final_conclusion := none, status := .idle,
    consensus := [] }

/-- `_phase_initialization`: agents only "prepare" (a print); no state
change. -/
def phase_initialization (st : OrchState) : OrchState := st

/-- `(agent.act ctx).toList`: the messages contributed by an optional
agent for one `act` call (empty when the role is unregistered or `act`
returns `None`). -/
def actMsgs (a? : Option DebateAgent) (phase : String) : List AgentMsg :=
  match a? with
  | some a => (a.act phase).toList
  | none => []

/-- `_phase_exploration`: evidence agent then visionary each contribute
at most one message; a new round is always recorded. -/
def phase_exploration (agents : List DebateAgent) (st : OrchState) : OrchState :=
  let r := st.current_round + 1
  let msgs := actMsgs (getAgent agents "evidence") "literature_review" ++
    actMsgs (getAgent agents "visionary") "breakthrough"
  { st with current_round := r,
            rounds := st.rounds ++ [⟨r, .exploration, msgs⟩] }

/-- One iteration of `_phase_proposal`'s loop over
`[visionary, architect]`: a present agent acts with a role-dependent
context phase, and a returned message is recorded and extracted as a
proposal. -/
def proposalStep (acc : List AgentMsg × List Artifact) (a? : Option DebateAgent) :
    List AgentMsg × List Artifact :=
  match a? with
  | none => acc
  | some a =>
    let ph := if a.role = "visionary" then "ideation" else "architecture"
    match a.act ph with
    | none => acc
    | some msg => (acc.1 ++ [msg], acc.2 ++ [⟨msg.content, msg.sender⟩])

/-- `_phase_proposal`. -/
def phase_proposal (agents : List DebateAgent) (st : OrchState) : OrchState :=
  let r := st.current_round + 1
  let res := [getAgent agents "visionary", getAgent agents "architect"].foldl
    proposalStep ([], st.proposals)
  { st with current_round := r, proposals := res.2,
            rounds := st.rounds ++ [⟨r, .proposal, res.1⟩] }

/-- `_phase_critique`: when a critic is registered and proposals exist,
critique each of the last two proposals (`self.proposals[-2:]`), then run
one stress test on the last proposal. -/
def phase_critique (agents : List DebateAgent) (st : OrchState) : OrchState :=
  let r := st.current_round + 1
  let res :=
    match getAgent agents "critic" with
    | none => ([], st.critiques)
    | some critic =>
      if st.proposals.isEmpty then ([], st.critiques)
      else
        let acc := (pySliceFromNeg st.proposals 2).foldl
          (fun (acc : List AgentMsg × List Artifact) _p =>
            match critic.act "critique" with
            | none => acc
            | some msg => (acc.1 ++ [msg], acc.2 ++ [(⟨msg.content, msg.sender⟩ : Artifact)]))
          ([], st.critiques)
        match critic.act "stress_test" with
        | none => acc
        | some msg => (acc.1 ++ [msg], acc.2)
  { st with current_round := r, critiques := res.2,
            rounds := st.rounds ++ [⟨r, .critique, res.1⟩] }

/-- `_phase_synthesis`: the synthesizer integrates once proposals number
at least two, after which the architect refines if a synthesis exists. -/
def phase_synthesis (agents : List DebateAgent) (st : OrchState) : OrchState :=
  let r := st.current_round + 1
  let res :=
    match getAgent agents "synthesizer" with
    | none => ([], st.syntheses)
    | some syn =>
      if 2 ≤ st.proposals.length then
        match syn.act "synthesis" with
        | none => ([], st.syntheses)
        | some msg => ([msg], st.syntheses ++ [(⟨msg.content, msg.sender⟩ : Artifact)])
      else ([], st.syntheses)
  let msgs₂ :=
    match getAgent agents "architect" with
    | none => []
    | some arch => if res.2.isEmpty then [] else (arch.act "refinement").toList
  { st with current_round := r, syntheses := res.2,
            rounds := st.rounds ++ [⟨r, .synthesis, res.1 ++ msgs₂⟩] }

/-- `_phase_verification`: the experimentalist designs an experiment and
a benchmark when a synthesis exists. -/
def phase_verification (agents : List DebateAgent) (st : OrchState) : OrchState :=
  let r := st.current_round + 1
  let msgs :=
    match getAgent agents "experimentalist" with
    | none => []
    | some ex =>
      if st.syntheses.isEmpty then []
      else (ex.act "experiment_design").toList ++ (ex.act "benchmark").toList
  { st with current_round := r,
            rounds := st.rounds ++ [⟨r, .verification, msgs⟩] }

/-- `_phase_convergence`: the synthesizer crafts the final theory; a
returned message becomes `final_conclusion`. -/
def phase_convergence (agents : List DebateAgent) (st : OrchState) : OrchState :=
  let r := st.current_round + 1
  let res :=
    match getAgent agents "synthesizer" with
    | none => ([], st.final_conclusion)
    | some syn =>
      match syn.act "final_theory" with
      | none => ([], st.final_conclusion)
      | some msg => ([msg], some (⟨msg.content, msg.sender⟩ : Artifact))
  { st with current_round := r, final_conclusion := res.2,
            rounds := st.rounds ++ [⟨r, .convergence, res.1⟩] }

/-- `_phase_conclusion`: when no conclusion was captured and a synthesis
exists, promote the last synthesis to the conclusion (source
`"synthesis"`). -/
def phase_conclusion (st : OrchState) : OrchState :=
  match st.final_conclusion, st.syntheses.getLast? with
  | none, some a => { st with final_conclusion := some ⟨a.content, "synthesis"⟩ }
  | _, _ => st

/-- The hardcoded round floor of `_check_convergence`
(`if len(self.rounds) < 3: return False`). -/
def minRoundsFloor : Nat := 3

/-- `_check_convergence`. -/
def check_convergence (cfg : DebateConfig) (st : OrchState) : Bool :=
  if st.rounds.length < minRoundsFloor then false
  else
    let consensus_score := getAverageConsensus st.consensus
    if cfg.min_consensus_threshold ≤ consensus_score ∧ 5 ≤ st.rounds.length then
      true
    else if cfg.max_rounds ≤ st.current_round then true
    else false

/-- The `phase_handlers` mapping. -/
def runPhase (agents : List DebateAgent) : DebatePhase → OrchState → OrchState
  | .initialization => phase_initialization
  | .exploration => phase_exploration agents
  | .proposal => phase_proposal agents
  | .critique => phase_critique agents
  | .synthesis => phase_synthesis agents
  | .verification => phase_verification agents
  | .convergence => phase_convergence agents
  | .conclusion => phase_conclusion

/-- The fixed phase order of `start_debate`. -/
def debatePhases : List DebatePhase :=
  [.initialization, .exploration, .proposal, .critique, .synthesis,
   .verification, .convergence, .conclusion]

/-- The phase loop of `start_debate`: run each phase while the state is
`RUNNING`; after each phase, an early-convergence hit sets `CONVERGED`,
runs `_phase_conclusion`, and breaks. -/
def runPhases (agents : List DebateAgent) (cfg : DebateConfig) :
    List DebatePhase → OrchState → OrchState
  | [], st => st
  | p :: rest, st =>
    if st.status ≠ .running then st
    else
      let st₁ := runPhase agents p st
      if check_convergence cfg st₁ then
        phase_conclusion { st₁ with status := .converged }
      else runPhases agents cfg rest st₁

/-- The final report dict of `_generate_final_report`. -/
structure FinalReport where
  topic : String
  research_goal : String
  status : DebateStatus
  rounds_completed : Nat
  phases_completed : List DebatePhase
  proposals_generated : Nat
  critiques_provided : Nat
  syntheses_created : Nat
  final_conclusion : Option Artifact
  consensus_score : ℚ
  all_proposals : List Artifact
  all_critiques : List Artifact
  all_syntheses : List Artifact

/-- `_generate_final_report`. -/
def generate_final_report (topic research_goal : String) (st : OrchState) :
    FinalReport :=
  { topic := topic, research_goal := research_goal, status := st.status,
    rounds_completed := st.current_round,
    phases_completed := st.rounds.map (fun r => r.phase),
    proposals_generated := st.proposals.length,
    critiques_provided := st.critiques.length,
    syntheses_created := st.syntheses.length,
    final_conclusion := st.final_conclusion,
    consensus_score := getAverageConsensus st.consensus,
    all_proposals := st.proposals, all_critiques := st.critiques,
    all_syntheses := st.syntheses }

/-- `start_debate`: set `RUNNING`, run the phase loop, then set the
terminal status — `CONVERGED` when a `final_conclusion` exists and
`MAX_ROUNDS` otherwise — and build the report. -/
def start_debate (agents : List DebateAgent) (cfg : DebateConfig)
    (topic goal : String) : FinalReport :=
  let research_goal :=
    if goal = "" then "Research and develop novel approaches for: " ++ topic
    else goal
  let st₀ := { initOrchState with status := .running }
  let st₁ := runPhases agents cfg debatePhases st₀
  let st₂ := { st₁ with
    status := if st₁.final_conclusion.isSome then .converged else .max_rounds }
  generate_final_report topic research_goal st₂

/-! ## Structured response contract — `ai_research_agents/core/llm.py`

`GeminiLLM.generate_structured` post-processes the raw generator text
through a cascade: direct `json.loads`, fenced-block extraction,
brace/bracket-span extraction, truncation repair
(`_try_fix_incomplete_json` / `_close_json_structures`), and a final
schema-driven fallback (`_create_fallback_response`).  We embed the
cascade over the response text; `json.loads` is modelled by a fuelled
recursive-descent JSON reader.  JSON numbers are kept lexical as
`mantissa · 10 ^ exp10`, never evaluated. -/

inductive Json where
  | null
  | bool (b : Bool)
  | num (mantissa : Int) (exp10 : Int)
  | str (s : String)
  | arr (elems : List Json)
  | obj (fields : List (String × Json))

/-- Read a field of a JSON object (`result["k"]`), `none` on non-objects. -/
def Json.lookupField : Json → String → Option Json
  | .obj fs, k => (fs.find? (fun p => p.1 == k)).map Prod.snd
  | _, _ => none

/-- Python truthiness of a JSON value (`if fixed_result:`): empty
containers, empty strings, zero, `false` and `null` are falsy. -/
def jsonTruthy : Json → Bool
  | .null => false
  | .bool b => b
  | .num m _ => !(m == 0)
  | .str s => !s.isEmpty
  | .arr l => !l.isEmpty
  | .obj l => !l.isEmpty

/-- The whitespace characters of the JSON grammar. -/
def jsonWs (c : Char) : Bool :=
  c = ' ' || c = '\t' || c = '\n' || c = '\r'

def skipWs : List Char → List Char
  | [] => []
  | c :: cs => if jsonWs c then skipWs cs else c :: cs

/-- Longest leading run of decimal digits. -/
def readDigits : List Char → List Char × List Char
  | [] => ([], [])
  | c :: cs =>
    if c.isDigit then
      let (ds, rest) := readDigits cs
      (c :: ds, rest)
    else ([], c :: cs)

def digitsToNat (ds : List Char) : Nat :=
  ds.foldl (fun n c => n * 10 + (c.toNat - '0'.toNat)) 0

/-- JSON number: optional minus, integer part (`0` or a nonzero-led digit
run), optional fraction, optional exponent; kept as mantissa and a power
of ten. -/
def readNumber (cs : List Char) : Option ((Int × Int) × List Char) :=
  let (neg, cs₁) := match cs with
    | '-' :: rest => (true, rest)
    | _ => (false, cs)
  match cs₁ with
  | [] => none
  | c :: _ =>
    if ¬c.isDigit then none
    else
      let (intDs, cs₂) :=
        if c = '0' then (['0'], cs₁.drop 1) else readDigits cs₁
      let (fracDs, cs₃) := match cs₂ with
        | '.' :: rest =>
          let (ds, rest₂) := readDigits rest
          (ds, if ds.isEmpty then cs₂ else rest₂)
        | _ => ([], cs₂)
      if (match cs₂ with | '.' :: _ => fracDs.isEmpty | _ => false) then none
      else
        let (expVal, cs₄) := match cs₃ with
          | 'e' :: rest | 'E' :: rest =>
            let (esign, rest₁) := match rest with
              | '+' :: r => ((1 : Int), r)
              | '-' :: r => ((-1 : Int), r)
              | _ => ((1 : Int), rest)
            let (eds, rest₂) := readDigits rest₁
            if eds.isEmpty then ((0 : Int), cs₃)
            else (esign * digitsToNat eds, rest₂)
          | _ => ((0 : Int), cs₃)
        let mantissa : Int := digitsToNat (intDs ++ fracDs)
        let mantissa := if neg then -mantissa else mantissa
        some ((mantissa, expVal - (fracDs.length : Int)), cs₄)

/-- Body of a JSON string after the opening quote, strict mode: raw
control characters are rejected, the standard escapes are decoded
(`\uXXXX` without surrogate pairing). -/
def readStringBody : Nat → List Char → List Char → Option (String × List Char)
  | 0, _, _ => none
  | _ + 1, _, [] => none
  | fuel + 1, acc, c :: cs =>
    if c = '"' then some (String.mk acc.reverse, cs)
    else if c = '\\' then
      match cs with
      | '"' :: rest => readStringBody fuel ('"' :: acc) rest
      | '\\' :: rest => readStringBody fuel ('\\' :: acc) rest
      | '/' :: rest => readStringBody fuel ('/' :: acc) rest
      | 'b' :: rest => readStringBody fuel (Char.ofNat 8 :: acc) rest
      | 'f' :: rest => readStringBody fuel (Char.ofNat 12 :: acc) rest
      | 'n' :: rest => readStringBody fuel ('\n' :: acc) rest
      | 'r' :: rest => readStringBody fuel (Char.ofNat 13 :: acc) rest
      | 't' :: rest => readStringBody fuel ('\t' :: acc) rest
      | 'u' :: h₁ :: h₂ :: h₃ :: h₄ :: rest =>
        let hex? := fun (c : Char) =>
          if c.isDigit then some (c.toNat - '0'.toNat)
          else if 'a' ≤ c ∧ c ≤ 'f' then some (c.toNat - 'a'.toNat + 10)
          else if 'A' ≤ c ∧ c ≤ 'F' then some (c.toNat - 'A'.toNat + 10)
          else none
        match hex? h₁, hex? h₂, hex? h₃, hex? h₄ with
        | some a, some b, some c', some d =>
          readStringBody fuel (Char.ofNat (((a * 16 + b) * 16 + c') * 16 + d) :: acc) rest
        | _, _, _, _ => none
      | _ => none
    else if c.toNat < 32 then none
    else readStringBody fuel (c :: acc) cs

/-- Parsing mode of the recursive-descent reader: a whole value, the
`, elem]` tail of an array (accumulator reversed), or the `, "k": v}`
tail of an object. -/
inductive JMode where
  | val
  | arrTail (acc : List Json)
  | objTail (acc : List (String × Json))

/-- The recursive-descent JSON reader, structurally recursive on a fuel
that every call decreases while also consuming input; with fuel
`length + 1` it is total on its input (each recursive call consumes at
least one character first). -/
def parseStep : Nat → JMode → List Char → Option (Json × List Char)
  | 0, _, _ => none
  | fuel + 1, .val, cs =>
    match skipWs cs with
    | [] => none
    | c :: rest =>
      if c = 't' then
        if ['r', 'u', 'e'].isPrefixOf rest then some (.bool true, rest.drop 3)
        else none
      else if c = 'f' then
        if ['a', 'l', 's', 'e'].isPrefixOf rest then some (.bool false, rest.drop 4)
        else none
      else if c = 'n' then
        if ['u', 'l', 'l'].isPrefixOf rest then some (.null, rest.drop 3)
        else none
      else if c = '"' then
        match readStringBody (rest.length + 1) [] rest with
        | some (s, rest₂) => some (.str s, rest₂)
        | none => none
      else if c = '[' then
        match skipWs rest with
        | ']' :: rest₂ => some (.arr [], rest₂)
        | cs₂ =>
          match parseStep fuel .val cs₂ with
          | some (v, rest₂) => parseStep fuel (.arrTail [v]) rest₂
          | none => none
      else if c = '{' then
        match skipWs rest with
        | '}' :: rest₂ => some (.obj [], rest₂)
        | '"' :: rest₂ =>
          match readStringBody (rest₂.length + 1) [] rest₂ with
          | some (k, rest₃) =>
            match skipWs rest₃ with
            | ':' :: rest₄ =>
              match parseStep fuel .val rest₄ with
              | some (v, rest₅) => parseStep fuel (.objTail [(k, v)]) rest₅
              | none => none
            | _ => none
          | none => none
        | _ => none
      else
        match readNumber (c :: rest) with
        | some ((m, e), rest₂) => some (.num m e, rest₂)
        | none => none
  | fuel + 1, .arrTail acc, cs =>
    match skipWs cs with
    | ']' :: rest => some (.arr acc.reverse, rest)
    | ',' :: rest =>
      match parseStep fuel .val rest with
      | some (v, rest₂) => parseStep fuel (.arrTail (v :: acc)) rest₂
      | none => none
    | _ => none
  | fuel + 1, .objTail acc, cs =>
    match skipWs cs with
    | '}' :: rest => some (.obj acc.reverse, rest)
    | ',' :: rest =>
      match skipWs rest with
      | '"' :: rest₂ =>
        match readStringBody (rest₂.length + 1) [] rest₂ with
        | some (k, rest₃) =>
          match skipWs rest₃ with
          | ':' :: rest₄ =>
            match parseStep fuel .val rest₄ with
            | some (v, rest₅) => parseStep fuel (.objTail ((k, v) :: acc)) rest₅
            | none => none
          | _ => none
        | none => none
      | _ => none
    | _ => none

/-- `json.loads` on a character list: one value, then only trailing
whitespace. -/
def jsonLoadsChars (cs : List Char) : Option Json :=
  match parseStep (cs.length + 1) .val cs with
  | some (v, rest) => if (skipWs rest).isEmpty then some v else none
  | none => none

/-- Python `str.strip()`: drop whitespace at both ends. -/
def stripChars (cs : List Char) : List Char :=
  ((cs.dropWhile Char.isWhitespace).reverse.dropWhile Char.isWhitespace).reverse

/-- Python `str.strip(quoteChar)` as used by the fallback
(`.strip(...)` with a double-quote argument): drop quote characters at
both ends. -/
def stripQuotes (cs : List Char) : List Char :=
  ((cs.dropWhile (fun c => c == '"')).reverse.dropWhile (fun c => c == '"')).reverse

/-- All indices at which `pat` occurs in `cs`, ascending — the candidate
match start positions scanned by `re.search`. -/
def occurrencesOf (pat cs : List Char) : List Nat :=
  (List.range (cs.length + 1)).filter (fun i => pat.isPrefixOf (cs.drop i))

def findSubstrIdx? (pat cs : List Char) : Option Nat :=
  (occurrencesOf pat cs).head?

/-- The backtick character (written by code to avoid the literal). -/
def btick : Char := Char.ofNat 96

/-- A three-backtick code fence. -/
def fenceChars : List Char := [btick, btick, btick]

/-- The seven characters opening a json-tagged fence. -/
def fenceJsonChars : List Char := fenceChars ++ ['j', 's', 'o', 'n']

/-- The first code-block regex of `generate_structured` (a json-tagged
fence, lazy group, DOTALL): the text between the leftmost viable
json-fence opener and the next fence, whitespace-trimmed. -/
def extractFencedJson (cs : List Char) : Option (List Char) :=
  (occurrencesOf fenceJsonChars cs).findSome? fun i =>
    let tail := cs.drop (i + fenceJsonChars.length)
    match findSubstrIdx? fenceChars tail with
    | some j => some (stripChars (tail.take j))
    | none => none

/-- The second and third code-block regexes (a plain fence, whitespace,
then a greedy delimiter-bracketed group, whitespace, fence): from the
leftmost viable fence, the group runs from the opening delimiter to the
last closing delimiter still followed by whitespace and a fence. -/
def extractFencedDelim (op cl : Char) (cs : List Char) : Option (List Char) :=
  (occurrencesOf fenceChars cs).findSome? fun i =>
    let t₁ := (cs.drop (i + fenceChars.length)).dropWhile Char.isWhitespace
    match t₁ with
    | c :: _ =>
      if c = op then
        ((List.range t₁.length).reverse).findSome? fun j =>
          if 1 ≤ j ∧ t₁.get? j = some cl ∧
              fenceChars.isPrefixOf ((t₁.drop (j + 1)).dropWhile Char.isWhitespace) then
            some (t₁.take (j + 1))
          else none
      else none
    | [] => none

def findIdxOf? (c : Char) (cs : List Char) : Option Nat :=
  cs.findIdx? (fun x => x == c)

def findLastIdxOf? (c : Char) (cs : List Char) : Option Nat :=
  (cs.reverse.findIdx? (fun x => x == c)).map (fun k => cs.length - 1 - k)

/-- The bare-span regexes (a greedy delimiter-bracketed group, DOTALL):
the segment from the first opening delimiter to the last closing
delimiter, when the latter comes after the former. -/
def extractSpan (op cl : Char) (cs : List Char) : Option (List Char) :=
  match findIdxOf? op cs, findLastIdxOf? cl cs with
  | some i, some j => if i < j then some ((cs.take (j + 1)).drop i) else none
  | _, _ => none

/-- `GeminiLLM._close_json_structures`: count unbalanced quotes, braces
and brackets, then append a closing quote (if the quote count is odd),
the missing closing braces, and the missing closing brackets, in that
order (a negative imbalance contributes nothing, as in Python's
`'x' * n`). -/
def close_json_structures (cs : List Char) : List Char :=
  let braces : Int := (cs.count '{' : Int) - (cs.count '}' : Int)
  let brackets : Int := (cs.count '[' : Int) - (cs.count ']' : Int)
  let quotes := cs.count '"' % 2
  let r := if quotes = 1 then cs ++ ['"'] else cs
  r ++ List.replicate braces.toNat '}' ++ List.replicate brackets.toNat ']'

/-- Python `range(start, stop, -step)` for positive `step`: descending
values from `start` while strictly above `stop`. -/
def pyRangeDown (start stop step : Nat) : List Nat :=
  if start ≤ stop then []
  else (List.range ((start - (stop + 1)) / step + 1)).map (fun k => start - step * k)

/-- `GeminiLLM._try_fix_incomplete_json`: from the first opening brace,
try progressively shorter prefixes (stepping the end position back by 50
from the full length while it stays above `obj_start + 10`), closing open
structures and parsing; first success wins. -/
def try_fix_incomplete_json (cs : List Char) : Option Json :=
  match findIdxOf? '{' cs with
  | none => none
  | some objStart =>
    (pyRangeDown cs.length (objStart + 10) 50).findSome? fun endPos =>
      jsonLoadsChars (close_json_structures ((cs.take endPos).drop objStart))

/-- One declared schema property: its name and its declared `type`
string. -/
structure SchemaProp where
  name : String
  type : String

/-- The target schema: its ordered `properties` map (the only part of
the schema dict that `_create_fallback_response` reads). -/
structure Schema where
  properties : List SchemaProp

/-- Case-insensitive prefix test (the fallback field regex is compiled
with `IGNORECASE`). -/
def ciIsPrefix : List Char → List Char → Bool
  | [], _ => true
  | _ :: _, [] => false
  | p :: ps, c :: cs => (p.toLower == c.toLower) && ciIsPrefix ps cs

/-- The value alternation of the fallback field regex, tried at one
position: a quote-free quoted string, a bracket-free bracketed group, a
brace-free braced group, `true`/`false`/`null` (case-insensitive), or a
digit run.  Returns the raw matched text. -/
def matchFieldValue (cs : List Char) : Option (List Char) :=
  match cs with
  | '"' :: rest =>
    let body := rest.takeWhile (fun c => c ≠ '"')
    match rest.drop body.length with
    | '"' :: _ => some ('"' :: body ++ ['"'])
    | _ => none
  | '[' :: rest =>
    let body := rest.takeWhile (fun c => c ≠ ']')
    match rest.drop body.length with
    | ']' :: _ => some ('[' :: body ++ [']'])
    | _ => none
  | '{' :: rest =>
    let body := rest.takeWhile (fun c => c ≠ '}')
    match rest.drop body.length with
    | '}' :: _ => some ('{' :: body ++ ['}'])
    | _ => none
  | _ =>
    if ciIsPrefix ['t', 'r', 'u', 'e'] cs then some (cs.take 4)
    else if ciIsPrefix ['f', 'a', 'l', 's', 'e'] cs then some (cs.take 5)
    else if ciIsPrefix ['n', 'u', 'l', 'l'] cs then some (cs.take 4)
    else
      let ds := cs.takeWhile Char.isDigit
      if ds.isEmpty then none else some ds

/-- `re.search` for the fallback field pattern: at the leftmost position,
a quoted occurrence of the field name (case-insensitive), optional
whitespace, a colon, optional whitespace, then a value from the
alternation. -/
def findFieldValue (fieldName : List Char) (cs : List Char) : Option (List Char) :=
  (List.range (cs.length + 1)).findSome? fun i =>
    match cs.drop i with
    | '"' :: t₁ =>
      if ciIsPrefix fieldName t₁ then
        match t₁.drop fieldName.length with
        | '"' :: t₂ =>
          match t₂.dropWhile Char.isWhitespace with
          | ':' :: t₃ => matchFieldValue (t₃.dropWhile Char.isWhitespace)
          | _ => none
        | _ => none
      else none
    | _ => none

/-- The type-appropriate default of `_create_fallback_response`
(`prop_def.get('type', 'string')` routing). -/
def defaultForType (t : String) (fieldName : String) : Json :=
  if t = "array" then .arr []
  else if t = "object" then .obj []
  else if t = "boolean" then .bool false
  else if t = "number" then .num 0 0
  else if t = "integer" then .num 0 0
  else .str ("[Could not extract " ++ fieldName ++ " from response]")

/-- `GeminiLLM._create_fallback_response`: extract what field values can
be pattern-matched from the raw text (parsed as JSON when possible, else
kept as a quote-stripped string), then fill every still-missing schema
field with a type-appropriate default; an empty result degrades to a
`raw_content` stub of the first 500 characters. -/
def create_fallback_response (schema : Schema) (raw : List Char) : Json :=
  let extracted := schema.properties.foldl
    (fun (acc : List (String × Json)) p =>
      match findFieldValue p.name.data raw with
      | none => acc
      | some g =>
        match jsonLoadsChars g with
        | some v => acc ++ [(p.name, v)]
        | none => acc ++ [(p.name, Json.str (String.mk (stripQuotes g)))])
    []
  let filled := schema.properties.foldl
    (fun (acc : List (String × Json)) p =>
      if acc.any (fun q => q.1 == p.name) then acc
      else acc ++ [(p.name, defaultForType p.type p.name)])
    extracted
  if filled.isEmpty then
    Json.obj [("raw_content", Json.str (String.mk (raw.take 500)))]
  else Json.obj filled

/-- `GeminiLLM.generate_structured`, from the point where the generator's
response text is in hand: strip it, then run the parse cascade — direct
parse; the three fenced-block patterns; the brace and bracket spans;
truncation repair (whose falsy results Python discards via
`if fixed_result:`); and finally the schema-driven fallback. -/
def generate_structured (schema : Schema) (responseContent : String) : Json :=
  let content := stripChars responseContent.data
  match jsonLoadsChars content with
  | some v => v
  | none =>
    let step2a := (extractFencedJson content).bind
      (fun g => jsonLoadsChars (stripChars g))
    let step2b := (extractFencedDelim '{' '}' content).bind
      (fun g => jsonLoadsChars (stripChars g))
    let step2c := (extractFencedDelim '[' ']' content).bind
      (fun g => jsonLoadsChars (stripChars g))
    let step3a := (extractSpan '{' '}' content).bind
      (fun g => jsonLoadsChars (stripChars g))
    let step3b := (extractSpan '[' ']' content).bind
      (fun g => jsonLoadsChars (stripChars g))
    match step2a <|> step2b <|> step2c <|> step3a <|> step3b with
    | some v => v
    | none =>
      match try_fix_incomplete_json content with
      | some v =>
        if jsonTruthy v then v else create_fallback_response schema content
      | none => create_fallback_response schema content

/-- The schema of the spec's truncation test vector:
`{a: string, b: array}`. -/
def schemaAB : Schema :=
  ⟨[⟨"a", "string"⟩, ⟨"b", "array"⟩]⟩

/-- The truncated generator response of the spec's test vector — an
object opening, the member `"a": "hello"`, and no closing brace. -/
def truncatedContent : String :=
  String.mk ['{', '"', 'a', '"', ':', ' ', '"', 'h', 'e', 'l', 'l', 'o', '"']

/-- The persistence property tracked through `add` calls for one entry
`e`: it is retrievable from long-term under its id; any short-term entry
carrying its id is `e` itself; and all ids in play are below the id
counter (so future entries cannot collide with `e`). -/
def Retains (e : MemoryEntry) (m : AgentMemory) : Prop :=
  dictLookup m.long_term e.id = some e ∧
  (∀ x ∈ m.short_term, x.id = e.id → x = e) ∧
  e.id < m.next_id ∧
  (∀ x ∈ m.short_term, x.id < m.next_id)

/-! ## Theorems -/

theorem dictLookup_cons (p : Nat × MemoryEntry) (d : List (Nat × MemoryEntry))
    (k : Nat) :
    dictLookup (p :: d) k = if p.1 = k then some p.2 else dictLookup d k := by
  by_cases h : p.1 = k
  · have hb : (p.1 == k) = true := by simpa using h
    simp [dictLookup, List.find?, hb, h]
  · have hb : (p.1 == k) = false := by simpa using h
    simp [dictLookup, List.find?, hb, h]

theorem dictInsert_cons_pos (p : Nat × MemoryEntry) (d : List (Nat × MemoryEntry))
    (k : Nat) (v : MemoryEntry) (h : p.1 = k) :
    dictInsert (p :: d) k v = (k, v) :: d := by
  simp [dictInsert, h]

theorem dictInsert_cons_neg (p : Nat × MemoryEntry) (d : List (Nat × MemoryEntry))
    (k : Nat) (v : MemoryEntry) (h : ¬p.1 = k) :
    dictInsert (p :: d) k v = p :: dictInsert d k v := by
  simp [dictInsert, h]

theorem dictLookup_dictInsert_self (d : List (Nat × MemoryEntry)) (k : Nat)
    (v : MemoryEntry) : dictLookup (dictInsert d k v) k = some v := by
  induction d with
  | nil => simp [dictInsert, dictLookup_cons]
  | cons p d ih =>
    by_cases h : p.1 = k
    · rw [dictInsert_cons_pos p d k v h, dictLookup_cons]
      simp
    · rw [dictInsert_cons_neg p d k v h, dictLookup_cons, if_neg h, ih]

theorem dictLookup_dictInsert_ne (d : List (Nat × MemoryEntry)) (k k' : Nat)
    (v : MemoryEntry) (h : k' ≠ k) :
    dictLookup (dictInsert d k v) k' = dictLookup d k' := by
  have hk : ¬(k = k') := fun hh => h hh.symm
  induction d with
  | nil =>
    show dictLookup [(k, v)] k' = dictLookup [] k'
    rw [dictLookup_cons, if_neg hk]
  | cons p d ih =>
    by_cases hp : p.1 = k
    · rw [dictInsert_cons_pos p d k v hp, dictLookup_cons, dictLookup_cons,
        if_neg hk, if_neg (by rw [hp]; exact hk)]
    · rw [dictInsert_cons_neg p d k v hp, dictLookup_cons, dictLookup_cons, ih]

theorem add_next_id (m : AgentMemory) (r : AddReq) :
    (m.add r).next_id = m.next_id + 1 := by
  by_cases himp : m.importance_threshold ≤ r.importance <;>
    simp only [AgentMemory.add, consolidate_to_long_term, consolidate_oldest,
      himp, if_true, if_false] <;> split <;> rfl

theorem add_max_short_term (m : AgentMemory) (r : AddReq) :
    (m.add r).max_short_term = m.max_short_term := by
  by_cases himp : m.importance_threshold ≤ r.importance <;>
    simp only [AgentMemory.add, consolidate_to_long_term, consolidate_oldest,
      himp, if_true, if_false] <;> split <;> rfl

theorem add_importance_threshold (m : AgentMemory) (r : AddReq) :
    (m.add r).importance_threshold = m.importance_threshold := by
  by_cases himp : m.importance_threshold ≤ r.importance <;>
    simp only [AgentMemory.add, consolidate_to_long_term, consolidate_oldest,
      himp, if_true, if_false] <;> split <;> rfl

theorem add_short_term_cases (m : AgentMemory) (r : AddReq) :
    (m.add r).short_term = m.short_term ++ [mkEntry m r] ∨
    (m.add r).short_term =
      pySliceFromNeg (m.short_term ++ [mkEntry m r]) m.max_short_term := by
  by_cases himp : m.importance_threshold ≤ r.importance <;>
    simp only [AgentMemory.add, consolidate_to_long_term, consolidate_oldest,
      himp, if_true, if_false] <;> split <;> simp

theorem length_pySliceFromNeg (l : List α) (k : Nat) (hk : 1 ≤ k) :
    (pySliceFromNeg l k).length = min l.length k := by
  unfold pySliceFromNeg
  rw [if_neg (by omega)]
  simp [List.length_drop]
  omega

/-- After any single `add`, the short-term buffer is within capacity
(provided the capacity is positive — with capacity `0`, Python's
`l[-0:]` slice would keep the whole buffer). -/
theorem add_short_term_le (m : AgentMemory) (r : AddReq)
    (h : 1 ≤ m.max_short_term) :
    (m.add r).short_term.length ≤ m.max_short_term := by
  by_cases hlen : m.max_short_term < m.short_term.length + 1
  · have hst : (m.add r).short_term =
        pySliceFromNeg (m.short_term ++ [mkEntry m r]) m.max_short_term := by
      by_cases himp : m.importance_threshold ≤ r.importance <;>
        simp [AgentMemory.add, consolidate_to_long_term, consolidate_oldest,
          himp, hlen]
    rw [hst, length_pySliceFromNeg _ _ h]
    exact min_le_right _ _
  · have hst : (m.add r).short_term = m.short_term ++ [mkEntry m r] := by
      by_cases himp : m.importance_threshold ≤ r.importance <;>
        simp [AgentMemory.add, consolidate_to_long_term, consolidate_oldest,
          himp, hlen]
    rw [hst]
    simp only [List.length_append, List.length_cons, List.length_nil]
    omega

theorem runAdds_max_short_term (m : AgentMemory) (rs : List AddReq) :
    (runAdds m rs).max_short_term = m.max_short_term := by
  induction rs generalizing m with
  | nil => rfl
  | cons r rs ih => simp [runAdds, List.foldl] at ih ⊢; rw [ih, add_max_short_term]

theorem runAdds_importance_threshold (m : AgentMemory) (rs : List AddReq) :
    (runAdds m rs).importance_threshold = m.importance_threshold := by
  induction rs generalizing m with
  | nil => rfl
  | cons r rs ih =>
    simp [runAdds, List.foldl] at ih ⊢; rw [ih, add_importance_threshold]

/-- C6.  For every sequence of `add` calls (any contents, sources,
importances, tags) on a freshly constructed memory with positive
configured capacity, the short-term buffer never exceeds that capacity
after any call returns. -/
theorem short_term_never_exceeds_capacity (maxShort : Nat) (thr : ℚ)
    (rs : List AddReq) (h : 1 ≤ maxShort) :
    (runAdds (initMemory maxShort thr) rs).short_term.length ≤ maxShort := by
  suffices H : ∀ (rs : List AddReq) (m : AgentMemory),
      m.max_short_term = maxShort → m.short_term.length ≤ maxShort →
      (runAdds m rs).short_term.length ≤ maxShort by
    exact H rs (initMemory maxShort thr) rfl (by simp [initMemory])
  intro rs
  induction rs with
  | nil => intro m _ hlen; exact hlen
  | cons r rs ih =>
    intro m hmax hlen
    refine ih (m.add r) (by rw [add_max_short_term, hmax]) ?_
    have := add_short_term_le m r (by omega)
    omega

/-- Witness for C6: three adds into a capacity-2 memory stay within
capacity. -/
theorem short_term_never_exceeds_capacity_witness :
    1 ≤ 2 ∧
    (runAdds (initMemory 2 (7/10))
      [⟨"a", "s", 1, []⟩, ⟨"b", "s", 0, []⟩, ⟨"c", "s", 0, []⟩]).short_term.length ≤ 2 :=
  ⟨by decide,
   short_term_never_exceeds_capacity 2 (7/10)
     [⟨"a", "s", 1, []⟩, ⟨"b", "s", 0, []⟩, ⟨"c", "s", 0, []⟩] (by decide)⟩

theorem mkEntry_id (m : AgentMemory) (r : AddReq) :
    (mkEntry m r).id = m.next_id := rfl

theorem mem_pySliceUptoNeg {l : List α} {k : Nat} {x : α}
    (h : x ∈ pySliceUptoNeg l k) : x ∈ l := by
  unfold pySliceUptoNeg at h
  split at h
  · simp at h
  · exact List.take_subset _ _ h

theorem mem_pySliceFromNeg {l : List α} {k : Nat} {x : α}
    (h : x ∈ pySliceFromNeg l k) : x ∈ l := by
  unfold pySliceFromNeg at h
  split at h
  · exact h
  · exact List.drop_subset _ _ h

/-- The long-term fold of `_consolidate_oldest` preserves the binding of
an entry `e` as long as every folded entry that shares `e`'s id is `e`
itself. -/
theorem dictLookup_consolidateFold (thr : ℚ) (l : List MemoryEntry)
    (e : MemoryEntry) (d : List (Nat × MemoryEntry))
    (hl : ∀ x ∈ l, x.id = e.id → x = e)
    (hd : dictLookup d e.id = some e) :
    dictLookup
      (l.foldl (fun d x => if thr ≤ x.importance then dictInsert d x.id x else d) d)
      e.id = some e := by
  induction l generalizing d with
  | nil => simpa using hd
  | cons x l ih =>
    simp only [List.foldl_cons]
    refine ih _ (fun y hy hid => hl y (List.mem_cons_of_mem _ hy) hid) ?_
    by_cases hx : thr ≤ x.importance
    · rw [if_pos hx]
      by_cases hid : x.id = e.id
      · have hxe : x = e := hl x (List.mem_cons_self _ _) hid
        subst hxe
        rw [hid, dictLookup_dictInsert_self]
      · rw [dictLookup_dictInsert_ne _ _ _ _ (fun hh => hid hh.symm)]
        exact hd
    · rw [if_neg hx]
      exact hd

theorem short_ids_lt_add (m : AgentMemory) (r : AddReq)
    (h : ∀ x ∈ m.short_term, x.id < m.next_id) :
    ∀ x ∈ (m.add r).short_term, x.id < (m.add r).next_id := by
  intro x hx
  rw [add_next_id]
  have hmem : x ∈ m.short_term ++ [mkEntry m r] := by
    rcases add_short_term_cases m r with hc | hc <;> rw [hc] at hx
    · exact hx
    · exact mem_pySliceFromNeg hx
  rcases List.mem_append.mp hmem with hx' | hx'
  · exact Nat.lt_succ_of_lt (h x hx')
  · simp at hx'
    subst hx'
    simp [mkEntry]

theorem short_ids_lt_runAdds (m : AgentMemory) (rs : List AddReq)
    (h : ∀ x ∈ m.short_term, x.id < m.next_id) :
    ∀ x ∈ (runAdds m rs).short_term, x.id < (runAdds m rs).next_id := by
  induction rs generalizing m with
  | nil => exact h
  | cons r rs ih =>
    simpa [runAdds] using ih (m.add r) (short_ids_lt_add m r h)

theorem retains_add (e : MemoryEntry) (m : AgentMemory) (r : AddReq)
    (h : Retains e m) : Retains e (m.add r) := by
  obtain ⟨hlook, hshort, hlt, hids⟩ := h
  have hne : e.id ≠ m.next_id := Nat.ne_of_lt hlt
  have hB : ∀ x ∈ m.short_term ++ [mkEntry m r], x.id = e.id → x = e := by
    intro x hx hid
    rcases List.mem_append.mp hx with hx' | hx'
    · exact hshort x hx' hid
    · simp at hx'
      subst hx'
      exact absurd hid (by simpa [mkEntry] using fun hh => hne hh.symm)
  have hC : ∀ x ∈ m.short_term ++ [mkEntry m r], x.id < m.next_id + 1 := by
    intro x hx
    rcases List.mem_append.mp hx with hx' | hx'
    · exact Nat.lt_succ_of_lt (hids x hx')
    · simp at hx'
      subst hx'
      simp [mkEntry]
  have hA : dictLookup (dictInsert m.long_term (mkEntry m r).id (mkEntry m r))
      e.id = some e := by
    rw [dictLookup_dictInsert_ne _ _ _ _ (by simpa [mkEntry] using hne)]
    exact hlook
  constructor
  case left =>
    by_cases hlen : m.max_short_term < m.short_term.length + 1
    · by_cases himp : m.importance_threshold ≤ r.importance
      · have hlong : (m.add r).long_term =
            (pySliceUptoNeg (m.short_term ++ [mkEntry m r]) m.max_short_term).foldl
              (fun d x =>
                if m.importance_threshold ≤ x.importance then dictInsert d x.id x else d)
              (dictInsert m.long_term (mkEntry m r).id (mkEntry m r)) := by
          simp [AgentMemory.add, consolidate_to_long_term, consolidate_oldest,
            himp, hlen]
        rw [hlong]
        exact dictLookup_consolidateFold _ _ _ _
          (fun x hx hid => hB x (mem_pySliceUptoNeg hx) hid) hA
      · have hlong : (m.add r).long_term =
            (pySliceUptoNeg (m.short_term ++ [mkEntry m r]) m.max_short_term).foldl
              (fun d x =>
                if m.importance_threshold ≤ x.importance then dictInsert d x.id x else d)
              m.long_term := by
          simp [AgentMemory.add, consolidate_to_long_term, consolidate_oldest,
            himp, hlen]
        rw [hlong]
        exact dictLookup_consolidateFold _ _ _ _
          (fun x hx hid => hB x (mem_pySliceUptoNeg hx) hid) hlook
    · by_cases himp : m.importance_threshold ≤ r.importance
      · have hlong : (m.add r).long_term =
            dictInsert m.long_term (mkEntry m r).id (mkEntry m r) := by
          simp [AgentMemory.add, consolidate_to_long_term, consolidate_oldest,
            himp, hlen]
        rw [hlong]
        exact hA
      · have hlong : (m.add r).long_term = m.long_term := by
          simp [AgentMemory.add, consolidate_to_long_term, consolidate_oldest,
            himp, hlen]
        rw [hlong]
        exact hlook
  case right =>
    refine ⟨?_, ?_, ?_⟩
    · intro x hx hid
      have hmem : x ∈ m.short_term ++ [mkEntry m r] := by
        rcases add_short_term_cases m r with hc | hc <;> rw [hc] at hx
        · exact hx
        · exact mem_pySliceFromNeg hx
      exact hB x hmem hid
    · rw [add_next_id]
      omega
    · exact short_ids_lt_add m r hids

theorem retains_of_add_important (m : AgentMemory) (r : AddReq)
    (hids : ∀ x ∈ m.short_term, x.id < m.next_id)
    (himp : m.importance_threshold ≤ r.importance) :
    Retains (mkEntry m r) (m.add r) := by
  have hB : ∀ x ∈ m.short_term ++ [mkEntry m r],
      x.id = (mkEntry m r).id → x = mkEntry m r := by
    intro x hx hid
    rcases List.mem_append.mp hx with hx' | hx'
    · exact absurd hid (Nat.ne_of_lt (hids x hx'))
    · simpa using hx'
  have hA : dictLookup (dictInsert m.long_term (mkEntry m r).id (mkEntry m r))
      (mkEntry m r).id = some (mkEntry m r) :=
    dictLookup_dictInsert_self _ _ _
  constructor
  case left =>
    by_cases hlen : m.max_short_term < m.short_term.length + 1
    · have hlong : (m.add r).long_term =
          (pySliceUptoNeg (m.short_term ++ [mkEntry m r]) m.max_short_term).foldl
            (fun d x =>
              if m.importance_threshold ≤ x.importance then dictInsert d x.id x else d)
            (dictInsert m.long_term (mkEntry m r).id (mkEntry m r)) := by
        simp [AgentMemory.add, consolidate_to_long_term, consolidate_oldest,
          himp, hlen]
      rw [hlong]
      exact dictLookup_consolidateFold _ _ _ _
        (fun x hx hid => hB x (mem_pySliceUptoNeg hx) hid) hA
    · have hlong : (m.add r).long_term =
          dictInsert m.long_term (mkEntry m r).id (mkEntry m r) := by
        simp [AgentMemory.add, consolidate_to_long_term, consolidate_oldest,
          himp, hlen]
      rw [hlong]
      exact hA
  case right =>
    refine ⟨?_, ?_, ?_⟩
    · intro x hx hid
      have hmem : x ∈ m.short_term ++ [mkEntry m r] := by
        rcases add_short_term_cases m r with hc | hc <;> rw [hc] at hx
        · exact hx
        · exact mem_pySliceFromNeg hx
      exact hB x hmem hid
    · rw [add_next_id, mkEntry_id]
      omega
    · exact short_ids_lt_add m r hids

theorem retains_runAdds (e : MemoryEntry) (m : AgentMemory) (rs : List AddReq)
    (h : Retains e m) : Retains e (runAdds m rs) := by
  induction rs generalizing m with
  | nil => exact h
  | cons r rs ih => simpa [runAdds] using ih (m.add r) (retains_add e m r h)

/-- C7.  An entry added with importance at or above the threshold stays
retrievable from the long-term store under its id after any subsequent
sequence of `add` calls, including enough of them to evict it from the
short-term buffer. -/
theorem important_entry_persists_in_long_term (maxShort : Nat) (thr : ℚ)
    (rs₁ : List AddReq) (r : AddReq) (rs₂ : List AddReq)
    (himp : thr ≤ r.importance) :
    dictLookup
      (runAdds ((runAdds (initMemory maxShort thr) rs₁).add r) rs₂).long_term
      (mkEntry (runAdds (initMemory maxShort thr) rs₁) r).id
    = some (mkEntry (runAdds (initMemory maxShort thr) rs₁) r) := by
  set m₁ := runAdds (initMemory maxShort thr) rs₁ with hm₁
  have hthr : m₁.importance_threshold = thr := by
    rw [hm₁, runAdds_importance_threshold]
    rfl
  have hids : ∀ x ∈ m₁.short_term, x.id < m₁.next_id := by
    rw [hm₁]
    refine short_ids_lt_runAdds _ _ ?_
    intro x hx
    simp [initMemory] at hx
  have h0 : Retains (mkEntry m₁ r) (m₁.add r) :=
    retains_of_add_important m₁ r hids (by rw [hthr]; exact himp)
  exact (retains_runAdds _ _ rs₂ h0).1

/-- Witness for C7: an entry of importance 1 added to a capacity-1
memory with threshold 7/10 survives two later low-importance adds that
evict it from short-term. -/
theorem important_entry_persists_in_long_term_witness :
    (7 : ℚ)/10 ≤ 1 ∧
    dictLookup
      (runAdds ((runAdds (initMemory 1 (7/10)) []).add ⟨"alpha", "s", 1, []⟩)
        [⟨"beta", "s", 0, []⟩, ⟨"gamma", "s", 0, []⟩]).long_term
      (mkEntry (runAdds (initMemory 1 (7/10)) []) ⟨"alpha", "s", 1, []⟩).id
    = some (mkEntry (runAdds (initMemory 1 (7/10)) []) ⟨"alpha", "s", 1, []⟩) :=
  ⟨by norm_num,
   important_entry_persists_in_long_term 1 (7/10) [] ⟨"alpha", "s", 1, []⟩
     [⟨"beta", "s", 0, []⟩, ⟨"gamma", "s", 0, []⟩] (by norm_num)⟩

/-- C5 counterexample.  An entry whose importance met the threshold at
add time resides in both the short-term buffer and the long-term store;
`search` scans the concatenation of the two, so the entry is returned
twice — refuting the claim that any stored entry appears at most once in
the result list. -/
theorem search_returns_dual_resident_entry_twice :
    List.count (⟨0, "hello world", "src", 1, []⟩ : MemoryEntry)
      (((initMemory 100 (7/10)).add ⟨"hello world", "src", 1, []⟩).search
        "hello" [] 0 10) = 2 := by
  have h : (((initMemory 100 (7/10)).add ⟨"hello world", "src", 1, []⟩).search
      "hello" [] 0 10) =
      [⟨0, "hello world", "src", 1, []⟩, ⟨0, "hello world", "src", 1, []⟩] := by
    norm_num +decide [AgentMemory.search, AgentMemory.add, initMemory, mkEntry,
      consolidate_to_long_term, consolidate_oldest, dictInsert, allMemories,
      searchPred, calculate_relevance, pyWords, wordsAux, sortByScoreDesc,
      insertDesc]
  rw [h]
  decide

theorem insertDesc_perm (a : ℚ × MemoryEntry) (l : List (ℚ × MemoryEntry)) :
    List.Perm (insertDesc a l) (a :: l) := by
  induction l with
  | nil => exact List.Perm.refl _
  | cons b l ih =>
    unfold insertDesc
    split
    · exact (List.Perm.cons _ ih).trans (List.Perm.swap _ _ _)
    · exact List.Perm.refl _

theorem foldl_insertDesc_perm (l : List (ℚ × MemoryEntry))
    (acc : List (ℚ × MemoryEntry)) :
    List.Perm (l.foldl (fun acc a => insertDesc a acc) acc) (acc ++ l) := by
  induction l generalizing acc with
  | nil => simp
  | cons a l ih =>
    simp only [List.foldl_cons]
    refine (ih _).trans ?_
    refine (((insertDesc_perm a acc).append_right l).trans ?_)
    exact List.perm_middle.symm

theorem sortByScoreDesc_perm (l : List (ℚ × MemoryEntry)) :
    List.Perm (sortByScoreDesc l) l := by
  simpa [sortByScoreDesc] using foldl_insertDesc_perm l []

/-- C5 amended.  `search` scans the concatenation (not a duplicate-free
union) of short-term and long-term: each occurrence of an entry across
the two stores contributes at most one result, so an entry is returned
at most as often as it occurs in short-term plus long-term — in
particular a dual-resident entry can be returned twice. -/
theorem search_count_le_store_occurrences (m : AgentMemory) (query : String)
    (tags : List String) (min_importance : ℚ) (limit : Nat) (e : MemoryEntry) :
    List.count e (m.search query tags min_importance limit) ≤
      List.count e m.short_term + List.count e (m.long_term.map Prod.snd) := by
  have hs : m.search query tags min_importance limit =
      ((sortByScoreDesc
        (((allMemories m).filter (searchPred query tags min_importance)).map
          (fun x => (calculate_relevance query x, x)))).take limit).map Prod.snd := rfl
  rw [hs]
  generalize hscored :
    ((allMemories m).filter (searchPred query tags min_importance)).map
      (fun x => (calculate_relevance query x, x)) = scored
  have h₂ : List.count e (((sortByScoreDesc scored).take limit).map Prod.snd) ≤
      List.count e ((sortByScoreDesc scored).map Prod.snd) :=
    ((List.take_sublist limit _).map Prod.snd).count_le e
  have h₃ : List.count e ((sortByScoreDesc scored).map Prod.snd) =
      List.count e (scored.map Prod.snd) :=
    ((sortByScoreDesc_perm scored).map Prod.snd).count_eq e
  have h₄ : List.count e (scored.map Prod.snd) =
      List.count e ((allMemories m).filter (searchPred query tags min_importance)) := by
    rw [← hscored, List.map_map]
    have hmm : List.map
        (Prod.snd ∘ fun x : MemoryEntry => (calculate_relevance query x, x))
        ((allMemories m).filter (searchPred query tags min_importance)) =
        (allMemories m).filter (searchPred query tags min_importance) :=
      List.map_id' _
    rw [hmm]
  have h₅ : List.count e
      ((allMemories m).filter (searchPred query tags min_importance)) ≤
      List.count e (allMemories m) :=
    (List.filter_sublist _).count_le e
  have h₆ : List.count e (allMemories m) =
      List.count e m.short_term + List.count e (m.long_term.map Prod.snd) := by
    simp [allMemories, List.count_append]
  omega

theorem dispatchLoop_map_fst (cs : List Callback) :
    (dispatchLoop cs).map Prod.fst = cs := by
  induction cs with
  | nil => rfl
  | cons c cs ih => simp [dispatchLoop, ih]

/-- C8.  For a broadcast (no recipient), `publish` invokes every
currently registered callback exactly once: counted with multiplicity,
the invocation list equals the registry — so delivery is exactly once
per registered callback, never repeated, regardless of how many other
subscribers exist. -/
theorem broadcast_invokes_each_callback_once (bus : MessageBus)
    (msg : BusMessage) (h : msg.recipient = none) (c : Callback) :
    List.count c (((publish bus msg).2).map Prod.fst) =
      List.count c (allCallbacks bus) := by
  have hev : (publish bus msg).2 = dispatchLoop (allCallbacks bus) := by
    simp [publish, dispatchTargets, h]
  rw [hev, dispatchLoop_map_fst]

/-- Witness for C8: a bus with three callbacks across two agents; the
broadcast invokes the chosen callback exactly once. -/
theorem broadcast_invokes_each_callback_once_witness :
    List.count (⟨1, true⟩ : Callback)
      (((publish
        (subscribe (subscribe (subscribe emptyBus "a" ⟨0, false⟩) "b" ⟨1, true⟩)
          "b" ⟨2, false⟩)
        ⟨"m1", "a", none, "hi", none⟩).2).map Prod.fst) =
      List.count (⟨1, true⟩ : Callback)
        (allCallbacks
          (subscribe (subscribe (subscribe emptyBus "a" ⟨0, false⟩) "b" ⟨1, true⟩)
            "b" ⟨2, false⟩)) ∧
    List.count (⟨1, true⟩ : Callback)
      (allCallbacks
        (subscribe (subscribe (subscribe emptyBus "a" ⟨0, false⟩) "b" ⟨1, true⟩)
          "b" ⟨2, false⟩)) = 1 :=
  ⟨broadcast_invokes_each_callback_once _ _ rfl _, by decide⟩

/-- C9.  If some dispatched callback raises, the failure is caught by the
per-invocation wrapper: every dispatched callback is still invoked (the
invocation list equals the dispatch-target list) and `publish` itself
completes normally, having appended the message to the log. -/
theorem callback_exception_does_not_abort_publish (bus : MessageBus)
    (msg : BusMessage)
    (_h : ∃ c ∈ dispatchTargets bus msg, c.throws = true) :
    ((publish bus msg).2).map Prod.fst = dispatchTargets bus msg ∧
    (publish bus msg).1.messages = bus.messages ++ [msg] :=
  ⟨dispatchLoop_map_fst _, rfl⟩

/-- Witness for C9: the first agent's callback raises; the second agent's
callback is still invoked and the message is logged. -/
theorem callback_exception_does_not_abort_publish_witness :
    (∃ c ∈ dispatchTargets (subscribe (subscribe emptyBus "a" ⟨0, true⟩) "b" ⟨1, false⟩)
        ⟨"m2", "x", none, "hi", none⟩, c.throws = true) ∧
    (((publish (subscribe (subscribe emptyBus "a" ⟨0, true⟩) "b" ⟨1, false⟩)
        ⟨"m2", "x", none, "hi", none⟩).2).map Prod.fst =
      dispatchTargets (subscribe (subscribe emptyBus "a" ⟨0, true⟩) "b" ⟨1, false⟩)
        ⟨"m2", "x", none, "hi", none⟩ ∧
    (publish (subscribe (subscribe emptyBus "a" ⟨0, true⟩) "b" ⟨1, false⟩)
        ⟨"m2", "x", none, "hi", none⟩).1.messages =
      (subscribe (subscribe emptyBus "a" ⟨0, true⟩) "b" ⟨1, false⟩).messages ++
        [⟨"m2", "x", none, "hi", none⟩]) :=
  ⟨by decide, callback_exception_does_not_abort_publish _ _ (by decide)⟩

/-- C4.  While fewer rounds than the floor (the hardcoded 3) have
completed, the convergence check never reports converged, whatever the
configuration, the consensus matrix, or the round counter. -/
theorem below_floor_never_converged (cfg : DebateConfig) (st : OrchState)
    (h : st.rounds.length < minRoundsFloor) :
    check_convergence cfg st = false := by
  simp [check_convergence, h]

/-- Witness for C4: two completed rounds, a fully agreeing consensus
matrix (average 1) above a zero threshold, and a round counter far past
the maximum — the check still reports false. -/
theorem below_floor_never_converged_witness :
    ([(⟨1, .exploration, []⟩ : RoundRec), ⟨2, .proposal, []⟩].length < minRoundsFloor) ∧
    check_convergence ⟨1, 0⟩
      { current_round := 99,
        rounds := [⟨1, .exploration, []⟩, ⟨2, .proposal, []⟩],
        proposals := [], critiques := [], syntheses := [],
        final_conclusion := none, status := .running,
        consensus := [("a", [("b", 1)])] } = false :=
  ⟨by decide, below_floor_never_converged _ _ (by decide)⟩

/-- C3 counterexample: a configuration with `maxRounds = 1` (the spec
admits any `maxRounds ≥ 1`) and exactly one completed round — equal to
the maximum — yet the convergence check reports false, because the
hardcoded 3-round floor is tested first. -/
theorem max_rounds_one_not_converged :
    check_convergence ⟨1, 3/4⟩
      { current_round := 1, rounds := [⟨1, .exploration, []⟩],
        proposals := [], critiques := [], syntheses := [],
        final_conclusion := none, status := .running, consensus := [] } = false := by
  rfl

/-- C3 amended.  Once at least the 3-round floor has completed, reaching
(or passing) the configured maximum round count makes the convergence
check report converged, regardless of the consensus score. -/
theorem max_rounds_reached_converges_after_floor (cfg : DebateConfig)
    (st : OrchState) (h3 : minRoundsFloor ≤ st.rounds.length)
    (hmax : cfg.max_rounds ≤ st.current_round) :
    check_convergence cfg st = true := by
  unfold check_convergence
  rw [if_neg (by omega)]
  by_cases hc : cfg.min_consensus_threshold ≤ getAverageConsensus st.consensus ∧
      5 ≤ st.rounds.length
  · simp [hc]
  · simp [hc, hmax]

/-- Witness for C3 amended: three completed rounds with `maxRounds = 3`
and zero consensus converge. -/
theorem max_rounds_reached_converges_after_floor_witness :
    (minRoundsFloor ≤
      [(⟨1, .exploration, []⟩ : RoundRec), ⟨2, .proposal, []⟩, ⟨3, .critique, []⟩].length) ∧
    check_convergence ⟨3, 3/4⟩
      { current_round := 3,
        rounds := [⟨1, .exploration, []⟩, ⟨2, .proposal, []⟩, ⟨3, .critique, []⟩],
        proposals := [], critiques := [], syntheses := [],
        final_conclusion := none, status := .running, consensus := [] } = true :=
  ⟨by decide, max_rounds_reached_converges_after_floor _ _ (by decide) (by decide)⟩

/-- C2 counterexample: with no agents registered at all — so every role
each phase selects is unresolved — `start_debate` does not abort before
the phases: all six round-recording phases run (with the missing agents'
contributions absent) and a normal MAX_ROUNDS report is produced.  There
is no start-time configuration check to fail. -/
theorem start_debate_no_agents_runs_all_phases :
    (start_debate [] defaultDebateConfig "X" "").phases_completed =
      [.exploration, .proposal, .critique, .synthesis, .verification, .convergence] ∧
    (start_debate [] defaultDebateConfig "X" "").status = .max_rounds ∧
    (start_debate [] defaultDebateConfig "X" "").rounds_completed = 6 := by
  refine ⟨?_, ?_, ?_⟩ <;>
    norm_num +decide [start_debate, runPhases, runPhase, debatePhases,
      phase_initialization, phase_exploration, phase_proposal, phase_critique,
      phase_synthesis, phase_verification, phase_convergence, phase_conclusion,
      check_convergence, getAverageConsensus, minRoundsFloor, getAgent, actMsgs,
      proposalStep, defaultDebateConfig, initOrchState, generate_final_report,
      pySliceFromNeg]

/-- C2 amended.  When no registered agent resolves for any selected role,
the debate is not aborted at start: under the default configuration every
phase runs with the missing contributions simply absent, no artifacts are
produced, and a normal MAX_ROUNDS report is returned. -/
theorem missing_roles_degrade_gracefully (agents : List DebateAgent)
    (h : ∀ role, getAgent agents role = none) (topic goal : String) :
    (start_debate agents defaultDebateConfig topic goal).status = .max_rounds ∧
    (start_debate agents defaultDebateConfig topic goal).phases_completed =
      [.exploration, .proposal, .critique, .synthesis, .verification, .convergence] ∧
    (start_debate agents defaultDebateConfig topic goal).proposals_generated = 0 ∧
    (start_debate agents defaultDebateConfig topic goal).final_conclusion = none := by
  refine ⟨?_, ?_, ?_, ?_⟩ <;>
    norm_num +decide [start_debate, runPhases, runPhase, debatePhases,
      phase_initialization, phase_exploration, phase_proposal, phase_critique,
      phase_synthesis, phase_verification, phase_convergence, phase_conclusion,
      check_convergence, getAverageConsensus, minRoundsFloor, actMsgs,
      proposalStep, defaultDebateConfig, initOrchState, generate_final_report,
      pySliceFromNeg, h]

/-- Witness for C2 amended: the empty agent list resolves no role. -/
theorem missing_roles_degrade_gracefully_witness :
    (start_debate [] defaultDebateConfig "Y" "g").status = .max_rounds ∧
    (start_debate [] defaultDebateConfig "Y" "g").phases_completed =
      [.exploration, .proposal, .critique, .synthesis, .verification, .convergence] ∧
    (start_debate [] defaultDebateConfig "Y" "g").proposals_generated = 0 ∧
    (start_debate [] defaultDebateConfig "Y" "g").final_conclusion = none :=
  missing_roles_degrade_gracefully [] (fun _ => rfl) "Y" "g"

/-- C10.  The terminal status of the final report is CONVERGED exactly
when a final-conclusion artifact exists and MAX_ROUNDS exactly when none
does — for every agent set, configuration, topic and goal, independent of
how the phase loop actually ended, because `start_debate` overwrites the
state from the conclusion's presence just before reporting. -/
theorem final_status_matches_conclusion_presence (agents : List DebateAgent)
    (cfg : DebateConfig) (topic goal : String) :
    ((start_debate agents cfg topic goal).status = .converged ↔
      ((start_debate agents cfg topic goal).final_conclusion).isSome = true) ∧
    ((start_debate agents cfg topic goal).status = .max_rounds ↔
      (start_debate agents cfg topic goal).final_conclusion = none) := by
  simp only [start_debate, generate_final_report]
  cases hfc : (runPhases agents cfg debatePhases
      { initOrchState with status := .running }).final_conclusion <;>
    simp [hfc]

/-- C1 counterexample: on the spec's own truncation test vector — input
`\x7b"a": "hello"` (no closing brace) against schema
`\x7ba: string, b: array\x7d` — the returned value carries `a = "hello"` but
does NOT contain the key `b` at all, refuting the guarantee that every
schema-declared field is present (and in particular that `b` is an empty
collection). -/
theorem truncated_input_lacks_schema_field :
    Json.lookupField (generate_structured schemaAB truncatedContent) "a" =
      some (Json.str "hello") ∧
    Json.lookupField (generate_structured schemaAB truncatedContent) "b" = none :=
  ⟨rfl, rfl⟩

/-- C1 amended.  On the truncated test vector the repair step
(`_try_fix_incomplete_json`) already succeeds — it closes the object and
parses `\x7b"a": "hello"\x7d` — and its result is returned as-is, without
schema completion: the value is exactly the one-field object
`a = "hello"`, and `b` is absent.  Only the final fallback
(`_create_fallback_response`) fills every schema key with defaults. -/
theorem truncated_input_repair_returns_parsed_prefix :
    generate_structured schemaAB truncatedContent =
      Json.obj [("a", Json.str "hello")] := rfl

end AIResearch
